import Mathlib

/-!
Shallow embedding of `src/cwxml/shader.py` (Sollumz shader catalog):
the `RenderBucketProperty` parser, the `Shader` record with its derived
properties, and the `ShaderManager` lookup tables
(`load_shaders` / `find_shader` / `find_shader_base_name`).

Strings are modelled as `List Char`; Python runtime exceptions as an
explicit `Except PyError`.  Parts of the repository that the file imports
but that are not under `src/` (`.element`, `.drawable`, `tools.jenkhash`)
are modelled from the spec and marked as such in their doc comments.
-/

namespace Sollumz

/-- Python runtime errors that the embedded code can raise. -/
inductive PyError : Type where
  | valueError : PyError
  | attributeError : PyError
  | typeError : PyError
  | keyError : PyError
deriving DecidableEq, Repr

instance {ε α : Type} [DecidableEq ε] [DecidableEq α] : DecidableEq (Except ε α) := fun
  | .error e, .error f =>
    decidable_of_iff (e = f) ⟨by rintro rfl; rfl, by intro h; cases h; rfl⟩
  | .error _, .ok _ => isFalse (by intro h; cases h)
  | .ok _, .error _ => isFalse (by intro h; cases h)
  | .ok a, .ok b =>
    decidable_of_iff (a = b) ⟨by rintro rfl; rfl, by intro h; cases h; rfl⟩

mutual
/-- Shallow embedding of an `xml.etree.ElementTree.Element`: a tag, the
attributes, the optional text node and the child elements in document
order.  The children are carried by the mutually defined `XmlForest`
(isomorphic to `List Xml`) so that recursion over the tree is plain
structural recursion. -/
inductive Xml : Type where
  | mk : List Char → List (List Char × List Char) → Option (List Char) → XmlForest → Xml
/-- A child sequence, isomorphic to `List Xml`. -/
inductive XmlForest : Type where
  | nil : XmlForest
  | cons : Xml → XmlForest → XmlForest
end

/-- The child sequence as a plain list. -/
def XmlForest.toList : XmlForest → List Xml
  | .nil => []
  | .cons x f => x :: f.toList

/-- Build the child sequence from a plain list. -/
def XmlForest.ofList : List Xml → XmlForest
  | [] => .nil
  | x :: l => .cons x (XmlForest.ofList l)

/-- Element constructor taking the children as a plain list. -/
def Xml.el (t : List Char) (a : List (List Char × List Char)) (tx : Option (List Char))
    (cs : List Xml) : Xml :=
  Xml.mk t a tx (XmlForest.ofList cs)

/-- The element's tag name. -/
def Xml.tag : Xml → List Char
  | .mk t _ _ _ => t

/-- The element's attributes. -/
def Xml.attrs : Xml → List (List Char × List Char)
  | .mk _ a _ _ => a

/-- The element's text node (`None` when absent). -/
def Xml.text : Xml → Option (List Char)
  | .mk _ _ tx _ => tx

/-- The element's direct children in document order. -/
def Xml.children : Xml → List Xml
  | .mk _ _ _ cs => cs.toList

mutual
/-- All proper descendants of an element, in document order (preorder):
each child followed by its own descendants.  This is the node sequence
the ElementTree path step `//*` selects below a node. -/
def Xml.properDescendants : Xml → List Xml
  | .mk _ _ _ cs => cs.descF
/-- Preorder descendant-or-self traversal of a child sequence. -/
def XmlForest.descF : XmlForest → List Xml
  | .nil => []
  | .cons x f => x :: (x.properDescendants ++ f.descF)
end

/-- Association-list model of a Python dict: `lookupD` returns the most
recent binding for a key, so `insertD` (which prepends) overwrites. -/
def lookupD {κ α : Type} [DecidableEq κ] : List (κ × α) → κ → Option α
  | [], _ => none
  | (k', v) :: rest, k => if k' = k then some v else lookupD rest k

/-- Python dict assignment `d[k] = v` (last write wins under `lookupD`). -/
def insertD {κ α : Type} (d : List (κ × α)) (k : κ) (v : α) : List (κ × α) :=
  (k, v) :: d

/-- The ASCII whitespace characters recognised by Python `str.strip` and by
`int`'s argument stripping. -/
def isPyWs (c : Char) : Bool :=
  decide (c = ' ' ∨ c = '\t' ∨ c = '\n' ∨ c = '\r' ∨ c = '\x0b' ∨ c = '\x0c')

/-- Python `str.strip()` (ASCII whitespace). -/
def pyStrip (s : List Char) : List Char :=
  ((s.dropWhile isPyWs).reverse.dropWhile isPyWs).reverse

/-- Helper of `splitSpace`: prepend a character to the first piece. -/
def consHead (c : Char) : List (List Char) → List (List Char)
  | [] => [[c]]
  | h :: t => (c :: h) :: t

/-- Python `s.split(" ")` with the explicit single-space separator: empty
pieces are kept, and the result is never the empty list. -/
def splitSpace : List Char → List (List Char)
  | [] => [[]]
  | c :: rest =>
    if c = ' ' then [] :: splitSpace rest
    else consHead c (splitSpace rest)

/-- Value of one digit character for `int(_, base)`: ASCII digits and
letters (either case), guarded by the base. -/
def digitVal (base : Nat) (c : Char) : Option Nat :=
  let n := c.toNat
  let v? : Option Nat :=
    if 48 ≤ n ∧ n ≤ 57 then some (n - 48)
    else if 97 ≤ n ∧ n ≤ 122 then some (n - 87)
    else if 65 ≤ n ∧ n ≤ 90 then some (n - 55)
    else none
  match v? with
  | some v => if v < base then some v else none
  | none => none

/-- Digit run of Python `int`, after the first digit: single underscores
are allowed between digits only. -/
def digitsAux (base : Nat) : Nat → List Char → Option Nat
  | acc, [] => some acc
  | acc, c :: rest =>
    if c = '_' then
      match rest with
      | [] => none
      | c2 :: rest2 =>
        match digitVal base c2 with
        | some v => digitsAux base (acc * base + v) rest2
        | none => none
    else
      match digitVal base c with
      | some v => digitsAux base (acc * base + v) rest
      | none => none

/-- A nonempty digit run starting with a digit (no leading underscore). -/
def parseDigits (base : Nat) : List Char → Option Nat
  | [] => none
  | c :: rest =>
    match digitVal base c with
    | some v => digitsAux base v rest
    | none => none

/-- Digit run directly after a base marker such as `0x`: CPython also
allows a single underscore right after the marker. -/
def parseDigitsAfterBase (base : Nat) : List Char → Option Nat
  | '_' :: rest => parseDigits base rest
  | l => parseDigits base l

/-- Optional sign at the front of the stripped literal. -/
def pySign (l : List Char) : Int × List Char :=
  match l with
  | [] => (1, [])
  | c :: r =>
    if c = '+' then (1, r)
    else if c = '-' then (-1, r)
    else (1, c :: r)

/-- Python `int(s, base)` for base 10 and 16 over ASCII input: strips
surrounding whitespace, allows one sign, for base 16 an optional `0x`/`0X`
marker, and single underscores between digits.  Returns `none` exactly
where Python raises `ValueError`. -/
def pyInt (base : Nat) (s : List Char) : Option Int :=
  let sg := pySign (pyStrip s)
  let core : Option Nat :=
    match sg.2 with
    | c0 :: c1 :: r =>
      if c0 = '0' ∧ (c1 = 'x' ∨ c1 = 'X') ∧ base = 16 then parseDigitsAfterBase base r
      else parseDigits base sg.2
    | _ => parseDigits base sg.2
  core.map (fun n => sg.1 * (n : Int))

/-- Python `s.startswith(p)`. -/
def startsWith : List Char → List Char → Bool
  | [], _ => true
  | _ :: _, [] => false
  | c :: p, d :: s => decide (c = d) && startsWith p s

/-- The constant `2 ^ 32`, the modulus of the 32-bit hash. -/
def M32 : Nat := 4294967296

/-- Modelled from the spec: `tools.jenkhash.Generate` is not under `src/`.
Per spec section 4.5 it is the Jenkins one-at-a-time 32-bit hash over the
lowercase bytes of the name (shift/add/xor rounds with the usual
3/11/15-bit finalisation avalanche). -/
def jenkhash_Generate (s : List Char) : Nat :=
  let body := s.foldl
    (fun h c =>
      let h1 := (h + c.toLower.toNat % 256) % M32
      let h2 := (h1 + h1 * 1024) % M32
      (h2 ^^^ h2 / 64) % M32)
    0
  let f1 := (body + body * 8) % M32
  let f2 := (f1 ^^^ f1 / 2048) % M32
  (f2 + f2 * 32768) % M32

/-- A shader parameter: a name/value pair (spec section 6). -/
structure ShaderParam where
  name : List Char
  value : List Char
deriving DecidableEq, Repr

/-- The `Shader` record of `src/cwxml/shader.py`.  `uid` models Python
object identity: every object built by `Shader.from_xml` is a distinct
dict key for `_shaders_base_names`, so each gets a fresh `uid`. -/
structure Shader where
  uid : Nat
  filename : List Char
  render_buckets : List Int
  layouts : List (List (List Char))
  parameters : List ShaderParam
deriving DecidableEq, Repr

def nameTag : List Char := "Name".toList
def renderBucketTag : List Char := "RenderBucket".toList
def layoutTag : List Char := "Layout".toList
def parametersTag : List Char := "Parameters".toList
def fileNameTag : List Char := "FileName".toList
def hashTok : List Char := "hash_".toList

/-- Python `node.find(tag)`: the first direct child with that tag. -/
def Xml.findChild (e : Xml) (t : List Char) : Option Xml :=
  e.children.find? (fun c => decide (c.tag = t))

/-- Error-propagating map of `int` over the split pieces, in order, as the
loop body of `RenderBucketProperty.from_xml` does. -/
def mapIntE : List (List Char) → Except PyError (List Int)
  | [] => .ok []
  | item :: rest =>
    match pyInt 10 item with
    | none => .error .valueError
    | some v =>
      match mapIntE rest with
      | .error err => .error err
      | .ok vs => .ok (v :: vs)

/-- Source `RenderBucketProperty.from_xml` (src/cwxml/shader.py): strips the text
node, splits on single spaces, converts every piece with `int`.  A `None`
text raises `AttributeError` at `.strip()`; a piece `int` cannot parse
raises `ValueError`. -/
def RenderBucketProperty_from_xml (e : Xml) : Except PyError (List Int) :=
  match e.text with
  | none => .error .attributeError
  | some t => mapIntE (splitSpace (pyStrip t))

/-- Source `RenderBucketProperty.to_xml` (src/cwxml/shader.py): the body runs
`" ".join(self.value)` over a list of ints, which raises `TypeError` for
any non-empty value list; with the empty list the join succeeds but the
method has no return statement, so Python `None` (no element) comes back
either way. -/
def RenderBucketProperty_to_xml (value : List Int) : Except PyError (Option Xml) :=
  match value with
  | [] => .ok none
  | _ :: _ => .error .typeError

/-- Modelled from the spec: the `VertexLayoutList` / `ListProperty`
machinery of `.drawable` / `.element` is not under `src/`.  Per spec
sections 3 and 4.2 a layout list holds one layout per child element, each
layout being the list of the field-tag names of that child's elements
(Position, Normal, Tangent, TexCoordN, ...). -/
def layoutsFromXml (e : Xml) : List (List (List Char)) :=
  e.children.map (fun item => item.children.map Xml.tag)

/-- Modelled from the spec: `ParametersList` of `.drawable` is not under
`src/`.  Per spec section 6 the parameters element holds repeated
name/value pairs, one per child element. -/
def parametersFromXml (e : Xml) : List ShaderParam :=
  e.children.map (fun item =>
    { name := (lookupD item.attrs "name".toList).getD []
      value := item.text.getD [] })

/-- Source `Shader.from_xml`.  The generic `ElementTree.from_xml` driver lives in
`.element`, which is not under `src/`; it is modelled from spec section
4.3: each declared field reads the direct child carrying its tag and keeps
its default when that child is absent.  The field list and tags are the
source's `Shader.__init__`; `RenderBucket` parsing is the source's.  The
caller assigns the fresh `uid`. -/
def Shader_from_xml (node : Xml) : Except PyError Shader :=
  let filename :=
    match node.findChild nameTag with
    | none => []
    | some c => c.text.getD []
  match (match node.findChild renderBucketTag with
         | none => Except.ok []
         | some c => RenderBucketProperty_from_xml c) with
  | .error e => .error e
  | .ok rb =>
    let ls :=
      match node.findChild layoutTag with
      | none => []
      | some c => layoutsFromXml c
    let ps :=
      match node.findChild parametersTag with
      | none => []
      | some c => parametersFromXml c
    .ok { uid := 0, filename := filename, render_buckets := rb, layouts := ls,
          parameters := ps }

/-- Source `Shader.required_tangent` (src): scan the layouts, return true on the
first one listing "Tangent". -/
def Shader.required_tangent (sh : Shader) : Bool :=
  sh.layouts.any (fun l => decide ("Tangent".toList ∈ l))

/-- Source `Shader.is_uv_animation_supported` (src): one pass over the parameters
setting the two flags, then their conjunction. -/
def Shader.is_uv_animation_supported (sh : Shader) : Bool :=
  let fl := sh.parameters.foldl
    (fun (acc : Bool × Bool) p =>
      (acc.1 || decide (p.name = "globalAnimUV0".toList),
       acc.2 || decide (p.name = "globalAnimUV1".toList)))
    (false, false)
  fl.1 && fl.2

/-- The `ShaderManager` class-level tables.  Python dicts are association
lists read through `lookupD`; `_shaders_base_names` is keyed by Shader
object identity, modelled by `uid`, with `nextUid` the supply of fresh
identities. -/
structure Catalog where
  shaders : List (List Char × Shader)
  shadersByHash : List (Int × Shader)
  baseNames : List (Nat × Option (List Char))
  nextUid : Nat
deriving DecidableEq, Repr

/-- The tables before `load_shaders` runs. -/
def emptyCatalog : Catalog := ⟨[], [], [], 0⟩

/-- Python `node.findall("./FileName//*")`: for every direct child tagged
FileName, all of its proper descendants — any tag, any depth — in
document order. -/
def aliasElems (node : Xml) : List Xml :=
  (node.children.filter (fun c => decide (c.tag = fileNameTag))).flatMap Xml.properDescendants

/-- The texts of the alias elements that have one. -/
def aliasTexts (node : Xml) : List (List Char) :=
  (aliasElems node).filterMap Xml.text

/-- The three table updates of one alias registration: overwrite the
parsed shader's filename with the alias, give it a fresh identity and
store it under the alias, under the alias's hash and in the base-name
table. -/
def regState (st : Catalog) (base_name : Option (List Char)) (filename : List Char)
    (sh0 : Shader) : Catalog :=
  let sh := { sh0 with filename := filename, uid := st.nextUid }
  { shaders := insertD st.shaders filename sh
    shadersByHash := insertD st.shadersByHash (Int.ofNat (jenkhash_Generate filename)) sh
    baseNames := insertD st.baseNames sh.uid base_name
    nextUid := st.nextUid + 1 }

/-- One iteration of the alias loop of `ShaderManager.load_shaders`: skip
a `None` text, otherwise hash the filename, parse the whole entry node
again and register the result (`regState`). -/
def aliasStep (node : Xml) (base_name : Option (List Char)) (st : Catalog) (el : Xml) :
    Except PyError Catalog :=
  match el.text with
  | none => .ok st
  | some filename =>
    match Shader_from_xml node with
    | .error e => .error e
    | .ok sh0 => .ok (regState st base_name filename sh0)

/-- Error-propagating left fold, the shape of the `for` loops in
`load_shaders`. -/
def foldE {α : Type} (f : Catalog → α → Except PyError Catalog) :
    Catalog → List α → Except PyError Catalog
  | st, [] => .ok st
  | st, x :: xs =>
    match f st x with
    | .error e => .error e
    | .ok st' => foldE f st' xs

/-- Processing of one catalog entry in `ShaderManager.load_shaders`:
`node.find("Name").text` (an `AttributeError` when the Name child is
missing), then the alias loop. -/
def processEntry (st : Catalog) (node : Xml) : Except PyError Catalog :=
  match node.findChild nameTag with
  | none => .error .attributeError
  | some nameEl => foldE (aliasStep node nameEl.text) st (aliasElems node)

/-- Source `ShaderManager.load_shaders` over the already-parsed document, given
as the list of the root's child entry nodes (reading and parsing the file
itself is I/O, outside the model). -/
def load_shaders (entries : List Xml) : Except PyError Catalog :=
  foldE processEntry emptyCatalog entries

/-- Source `ShaderManager.find_shader` (src): exact lookup, then the
`hash_`-token fallback through `int(filename[5:], 16)`. -/
def find_shader (st : Catalog) (filename : List Char) : Except PyError (Option Shader) :=
  match lookupD st.shaders filename with
  | some sh => .ok (some sh)
  | none =>
    if startsWith hashTok filename then
      match pyInt 16 (filename.drop 5) with
      | none => .error .valueError
      | some h => .ok (lookupD st.shadersByHash h)
    else .ok none

/-- Source `ShaderManager.find_shader_base_name` (src): compose `find_shader`
with the identity-keyed `_shaders_base_names` subscript (a `KeyError`
when the shader is not a key). -/
def find_shader_base_name (st : Catalog) (filename : List Char) :
    Except PyError (Option (List Char)) :=
  match find_shader st filename with
  | .error e => .error e
  | .ok none => .ok none
  | .ok (some sh) =>
    match lookupD st.baseNames sh.uid with
    | none => .error .keyError
    | some bn => .ok bn

/-- One lowercase hex digit. -/
def hexDigitChar (n : Nat) : Char :=
  if n < 10 then Char.ofNat (48 + n) else Char.ofNat (87 + n)

/-- Lowercase zero-padded 8-hex-digit rendering of a 32-bit value, the
digit part of the `hash_XXXXXXXX` token convention. -/
def toHex8 (n : Nat) : List Char :=
  [hexDigitChar (n / 16 ^ 7 % 16), hexDigitChar (n / 16 ^ 6 % 16),
   hexDigitChar (n / 16 ^ 5 % 16), hexDigitChar (n / 16 ^ 4 % 16),
   hexDigitChar (n / 16 ^ 3 % 16), hexDigitChar (n / 16 ^ 2 % 16),
   hexDigitChar (n / 16 % 16), hexDigitChar (n % 16)]

/-- The single-space join the spec prescribes for the render-bucket write
path (spec sections 6 and 9). -/
def joinSpace : List (List Char) → List Char
  | [] => []
  | [t] => t
  | t :: rest => t ++ ' ' :: joinSpace rest

/-- A concrete catalog entry, the spec's worked scenario: display name
"Standard Shader" with the two filename aliases. -/
def demoEntry : Xml :=
  Xml.el "Item".toList [] none [
    Xml.el "Name".toList [] (some "Standard Shader".toList) [],
    Xml.el "FileName".toList [] none [
      Xml.el "Item".toList [] (some "std.sps".toList) [],
      Xml.el "Item".toList [] (some "std_alt.sps".toList) []],
    Xml.el "RenderBucket".toList [] (some "0 3".toList) [],
    Xml.el "Layout".toList [] none [
      Xml.el "Item".toList [] none [
        Xml.el "Position".toList [] none [],
        Xml.el "Normal".toList [] none [],
        Xml.el "Tangent".toList [] none []]],
    Xml.el "Parameters".toList [] none [
      Xml.el "Item".toList [("name".toList, "globalAnimUV0".toList)] none []]]

/-- A one-entry concrete catalog. -/
def demoCatalog : List Xml := [demoEntry]

/-- The tables after loading `demoCatalog`. -/
def demoState : Catalog :=
  match load_shaders demoCatalog with
  | .ok st => st
  | .error _ => emptyCatalog

/-- The shader registered under "std.sps" in `demoState`. -/
def demoShaderStd : Shader :=
  match lookupD demoState.shaders "std.sps".toList with
  | some sh => sh
  | none => ⟨0, [], [], [], []⟩

/-- An entry whose FileName block nests alias elements at depth two under
a non-Item tag and also holds elements without text. -/
def c10Entry : Xml :=
  Xml.el "Item".toList [] none [
    Xml.el "Name".toList [] (some "W".toList) [],
    Xml.el "FileName".toList [] none [
      Xml.el "Group".toList [] none [
        Xml.el "Deep".toList [] (some "deep.sps".toList) []],
      Xml.el "Item".toList [] none []]]

/-- The tables after processing `c10Entry` from the empty state. -/
def c10State : Catalog :=
  match processEntry emptyCatalog c10Entry with
  | .ok st => st
  | .error _ => emptyCatalog

/-- A shader whose only layout lists just Position and Normal. -/
def shPosNorm : Shader :=
  ⟨0, [], [], [["Position".toList, "Normal".toList]], []⟩

/-- A shader carrying only the `globalAnimUV0` parameter. -/
def shUv0Only : Shader :=
  ⟨1, [], [], [], [⟨"globalAnimUV0".toList, []⟩]⟩

/-- Invariant of the tables reachable by `load_shaders` over the catalog
`cat`: registered shaders carry identities below the supply, every shader
reachable from either lookup table is a key of the base-name table whose
stored value is the `Name` text of some catalog entry, and every hash key
is a 32-bit value. -/
structure LoadInv (cat : List Xml) (st : Catalog) : Prop where
  uidS : ∀ k sh, lookupD st.shaders k = some sh → sh.uid < st.nextUid
  uidH : ∀ h sh, lookupD st.shadersByHash h = some sh → sh.uid < st.nextUid
  baseS : ∀ k sh, lookupD st.shaders k = some sh →
    ∃ bn, lookupD st.baseNames sh.uid = some bn ∧
      ∃ e, e ∈ cat ∧ ∃ c, Xml.findChild e nameTag = some c ∧ c.text = bn
  baseH : ∀ h sh, lookupD st.shadersByHash h = some sh →
    ∃ bn, lookupD st.baseNames sh.uid = some bn ∧
      ∃ e, e ∈ cat ∧ ∃ c, Xml.findChild e nameTag = some c ∧ c.text = bn
  hashRange : ∀ h sh, lookupD st.shadersByHash h = some sh →
    0 ≤ h ∧ h < (4294967296 : Int)

/-! ## General lemmas -/

theorem lookupD_insert_self {κ α : Type} [DecidableEq κ] (d : List (κ × α)) (k : κ) (v : α) :
    lookupD (insertD d k v) k = some v := by
  simp [insertD, lookupD]

theorem lookupD_insert_ne {κ α : Type} [DecidableEq κ] (d : List (κ × α)) (k k' : κ) (v : α)
    (h : k ≠ k') : lookupD (insertD d k v) k' = lookupD d k' := by
  simp [insertD, lookupD, h]

theorem Forall₂_exists_left {α β : Type} {R : α → β → Prop} :
    ∀ {l1 : List α} {l2 : List β}, List.Forall₂ R l1 l2 → ∀ t ∈ l1, ∃ v, R t v := by
  intro l1 l2 h
  induction h with
  | nil => intro t ht; cases ht
  | cons hr htail ih =>
    intro t ht
    rcases List.mem_cons.mp ht with rfl | ht'
    · exact ⟨_, hr⟩
    · exact ih t ht'

theorem mem_of_getLastQ {α : Type} (l : List α) (a : α) (h : l.getLast? = some a) : a ∈ l := by
  rw [List.getLast?_eq_head?_reverse] at h
  have hm : a ∈ l.reverse := by
    cases hr : l.reverse with
    | nil => rw [hr] at h; cases h
    | cons x xs =>
      rw [hr] at h
      simp only [List.head?_cons, Option.some.injEq] at h
      rw [← h]
      exact List.mem_cons_self x xs
  simpa using hm

/-! ## splitSpace / joinSpace / pyStrip lemmas (claim C4) -/

theorem splitSpace_no_space (l : List Char) (h : ∀ c ∈ l, c ≠ ' ') : splitSpace l = [l] := by
  induction l with
  | nil => rfl
  | cons c r ih =>
    simp only [splitSpace]
    rw [if_neg (h c (List.mem_cons_self c r))]
    rw [ih (fun d hd => h d (List.mem_cons_of_mem c hd))]
    rfl

theorem splitSpace_append (a rest : List Char) (h : ∀ c ∈ a, c ≠ ' ') :
    splitSpace (a ++ ' ' :: rest) = a :: splitSpace rest := by
  induction a with
  | nil =>
    simp only [List.nil_append, splitSpace, if_pos]
  | cons c a' ih =>
    simp only [List.cons_append, splitSpace]
    rw [if_neg (h c (List.mem_cons_self c a'))]
    simp only [List.append_eq]
    rw [ih (fun d hd => h d (List.mem_cons_of_mem c hd))]
    rfl

theorem splitSpace_joinSpace (toks : List (List Char)) (hne : toks ≠ [])
    (h : ∀ t ∈ toks, ∀ c ∈ t, c ≠ ' ') :
    splitSpace (joinSpace toks) = toks := by
  induction toks with
  | nil => exact absurd rfl hne
  | cons t rest ih =>
    cases rest with
    | nil =>
      rw [show joinSpace [t] = t from rfl]
      exact splitSpace_no_space t (h t (List.mem_cons_self t []))
    | cons t2 r2 =>
      rw [show joinSpace (t :: t2 :: r2) = t ++ ' ' :: joinSpace (t2 :: r2) from rfl]
      rw [splitSpace_append t _ (h t (List.mem_cons_self t _))]
      rw [ih (by simp) (fun u hu c hc => h u (List.mem_cons_of_mem t hu) c hc)]

theorem joinSpace_cons_append (t : List Char) (rest : List (List Char)) :
    ∃ x, joinSpace (t :: rest) = t ++ x := by
  cases rest with
  | nil => exact ⟨[], by simp [joinSpace]⟩
  | cons t2 r2 => exact ⟨' ' :: joinSpace (t2 :: r2), rfl⟩

theorem joinSpace_getLast_mem :
    ∀ (toks : List (List Char)), toks ≠ [] → (∀ t ∈ toks, t ≠ []) →
    ∀ c, (joinSpace toks).getLast? = some c → ∃ t ∈ toks, c ∈ t := by
  intro toks
  induction toks with
  | nil => intro hne; exact absurd rfl hne
  | cons t rest ih =>
    intro _ hall c hc
    cases rest with
    | nil =>
      exact ⟨t, List.mem_cons_self t [], mem_of_getLastQ t c hc⟩
    | cons t2 r2 =>
      rw [show joinSpace (t :: t2 :: r2) = t ++ ' ' :: joinSpace (t2 :: r2) from rfl,
        List.getLast?_append] at hc
      have hjoin_ne : joinSpace (t2 :: r2) ≠ [] := by
        obtain ⟨x, hx⟩ := joinSpace_cons_append t2 r2
        have ht2 := hall t2 (List.mem_cons_of_mem t (List.mem_cons_self t2 r2))
        rw [hx]
        cases t2 with
        | nil => exact absurd rfl ht2
        | cons y ys => simp
      cases hjj : joinSpace (t2 :: r2) with
      | nil => exact absurd hjj hjoin_ne
      | cons y ys =>
        rw [hjj, List.getLast?_cons_cons] at hc
        cases hgl : (y :: ys).getLast? with
        | none =>
          rw [hgl, Option.none_or] at hc
          exact ⟨t, List.mem_cons_self t _, mem_of_getLastQ t c hc⟩
        | some d =>
          rw [hgl, Option.or_some] at hc
          obtain ⟨u, hu, hcu⟩ :=
            ih (by simp) (fun s hs => hall s (List.mem_cons_of_mem t hs)) c
              (by rw [hjj, hgl, hc])
          exact ⟨u, List.mem_cons_of_mem t hu, hcu⟩

theorem pyStrip_eq_self (l : List Char)
    (hh : ∀ c, l.head? = some c → isPyWs c = false)
    (hl : ∀ c, l.getLast? = some c → isPyWs c = false) :
    pyStrip l = l := by
  unfold pyStrip
  have h1 : List.dropWhile isPyWs l = l := by
    cases l with
    | nil => rfl
    | cons c r =>
      rw [List.dropWhile_cons, hh c rfl]
      simp
  rw [h1]
  cases hr : l.reverse with
  | nil =>
    simpa using (List.reverse_eq_nil_iff.mp hr).symm
  | cons d rr =>
    have hd : l.getLast? = some d := by
      rw [List.getLast?_eq_head?_reverse, hr]; rfl
    rw [List.dropWhile_cons, hl d hd]
    simp only [Bool.false_eq_true, if_false]
    rw [← hr, List.reverse_reverse]

theorem mapIntE_ok : ∀ {toks : List (List Char)} {vals : List Int},
    List.Forall₂ (fun t v => pyInt 10 t = some v) toks vals → mapIntE toks = .ok vals := by
  intro toks vals h
  induction h with
  | nil => rfl
  | cons hr _ ih => simp [mapIntE, hr, ih]

/-! ## pyInt / toHex8 / startsWith lemmas (claims C3 and C9) -/

theorem digitVal_underscore (base : Nat) : digitVal base '_' = none := rfl

theorem digitsAux_cons_digit (base acc : Nat) (c : Char) (v : Nat) (rest : List Char)
    (h : digitVal base c = some v) :
    digitsAux base acc (c :: rest) = digitsAux base (acc * base + v) rest := by
  have hne : c ≠ '_' := by
    intro he
    rw [he, digitVal_underscore] at h
    cases h
  rw [digitsAux.eq_def]
  show (if c = '_' then
      match rest with
      | [] => none
      | c2 :: rest2 =>
        match digitVal base c2 with
        | some v => digitsAux base (acc * base + v) rest2
        | none => none
    else
      match digitVal base c with
      | some v => digitsAux base (acc * base + v) rest
      | none => none) = digitsAux base (acc * base + v) rest
  rw [if_neg hne, h]

theorem digitsAux_nil (base acc : Nat) : digitsAux base acc [] = some acc := rfl

theorem parseDigits_cons (base : Nat) (c : Char) (v : Nat) (rest : List Char)
    (h : digitVal base c = some v) :
    parseDigits base (c :: rest) = digitsAux base v rest := by
  simp only [parseDigits, h]

theorem hexDigitChar_spec (d : Nat) (hd : d < 16) :
    digitVal 16 (hexDigitChar d) = some d ∧ isPyWs (hexDigitChar d) = false ∧
    hexDigitChar d ≠ '+' ∧ hexDigitChar d ≠ '-' ∧
    hexDigitChar d ≠ 'x' ∧ hexDigitChar d ≠ 'X' := by
  interval_cases d <;> exact ⟨rfl, rfl, by decide, by decide, by decide, by decide⟩

theorem parseDigits_toHex8 (n : Nat) :
    parseDigits 16 (toHex8 n) = some
      (((((((n / 16 ^ 7 % 16) * 16 + n / 16 ^ 6 % 16) * 16 + n / 16 ^ 5 % 16) * 16
        + n / 16 ^ 4 % 16) * 16 + n / 16 ^ 3 % 16) * 16 + n / 16 ^ 2 % 16) * 16 * 16
        + (n / 16 % 16) * 16 + n % 16) := by
  have h16 : (0 : Nat) < 16 := by norm_num
  have s7 := hexDigitChar_spec (n / 16 ^ 7 % 16) (Nat.mod_lt _ h16)
  have s6 := hexDigitChar_spec (n / 16 ^ 6 % 16) (Nat.mod_lt _ h16)
  have s5 := hexDigitChar_spec (n / 16 ^ 5 % 16) (Nat.mod_lt _ h16)
  have s4 := hexDigitChar_spec (n / 16 ^ 4 % 16) (Nat.mod_lt _ h16)
  have s3 := hexDigitChar_spec (n / 16 ^ 3 % 16) (Nat.mod_lt _ h16)
  have s2 := hexDigitChar_spec (n / 16 ^ 2 % 16) (Nat.mod_lt _ h16)
  have s1 := hexDigitChar_spec (n / 16 % 16) (Nat.mod_lt _ h16)
  have s0 := hexDigitChar_spec (n % 16) (Nat.mod_lt _ h16)
  unfold toHex8
  rw [parseDigits_cons 16 _ _ _ s7.1,
    digitsAux_cons_digit 16 _ _ _ _ s6.1,
    digitsAux_cons_digit 16 _ _ _ _ s5.1,
    digitsAux_cons_digit 16 _ _ _ _ s4.1,
    digitsAux_cons_digit 16 _ _ _ _ s3.1,
    digitsAux_cons_digit 16 _ _ _ _ s2.1,
    digitsAux_cons_digit 16 _ _ _ _ s1.1,
    digitsAux_cons_digit 16 _ _ _ _ s0.1,
    digitsAux_nil]
  congr 1
  ring

theorem pyInt16_toHex8 (n : Nat) (hn : n < M32) :
    pyInt 16 (toHex8 n) = some (Int.ofNat n) := by
  have h16 : (0 : Nat) < 16 := by norm_num
  have s7 := hexDigitChar_spec (n / 16 ^ 7 % 16) (Nat.mod_lt _ h16)
  have s6 := hexDigitChar_spec (n / 16 ^ 6 % 16) (Nat.mod_lt _ h16)
  have s0 := hexDigitChar_spec (n % 16) (Nat.mod_lt _ h16)
  have hstrip : pyStrip (toHex8 n) = toHex8 n := by
    apply pyStrip_eq_self
    · intro c hc
      simp only [toHex8, List.head?_cons, Option.some.injEq] at hc
      rw [← hc]
      exact s7.2.1
    · intro c hc
      have hg : (toHex8 n).getLast? = some (hexDigitChar (n % 16)) := rfl
      rw [hg, Option.some.injEq] at hc
      rw [← hc]
      exact s0.2.1
  have hsign : pySign (toHex8 n) = (1, toHex8 n) := by
    simp only [toHex8, pySign]
    rw [if_neg s7.2.2.1, if_neg s7.2.2.2.1]
  simp only [pyInt]
  rw [hstrip, hsign]
  simp only [toHex8]
  rw [if_neg (by
    rintro ⟨-, hx | hx, -⟩
    · exact s6.2.2.2.2.1 hx
    · exact s6.2.2.2.2.2 hx)]
  rw [show (hexDigitChar (n / 16 ^ 7 % 16) :: hexDigitChar (n / 16 ^ 6 % 16) ::
      hexDigitChar (n / 16 ^ 5 % 16) :: hexDigitChar (n / 16 ^ 4 % 16) ::
      hexDigitChar (n / 16 ^ 3 % 16) :: hexDigitChar (n / 16 ^ 2 % 16) ::
      hexDigitChar (n / 16 % 16) :: [hexDigitChar (n % 16)]) = toHex8 n from rfl]
  rw [parseDigits_toHex8]
  simp only [Option.map_some, one_mul, Option.some.injEq]
  have e7 : (16 : Nat) ^ 7 = 268435456 := by norm_num
  have e6 : (16 : Nat) ^ 6 = 16777216 := by norm_num
  have e5 : (16 : Nat) ^ 5 = 1048576 := by norm_num
  have e4 : (16 : Nat) ^ 4 = 65536 := by norm_num
  have e3 : (16 : Nat) ^ 3 = 4096 := by norm_num
  have e2 : (16 : Nat) ^ 2 = 256 := by norm_num
  have hA : (((((((n / 16 ^ 7 % 16) * 16 + n / 16 ^ 6 % 16) * 16 + n / 16 ^ 5 % 16) * 16
      + n / 16 ^ 4 % 16) * 16 + n / 16 ^ 3 % 16) * 16 + n / 16 ^ 2 % 16) * 16 * 16
      + (n / 16 % 16) * 16 + n % 16) = n := by
    rw [e7, e6, e5, e4, e3, e2]
    rw [show M32 = 4294967296 from rfl] at hn
    omega
  rw [hA]
  rfl

theorem startsWith_append (p s : List Char) : startsWith p (p ++ s) = true := by
  induction p with
  | nil => rfl
  | cons c r ih => simp [startsWith, ih]

/-- The hash-token branch of `find_shader`: when the exact lookup misses
on a token of the shape `hash_` ++ x, the suffix is handed to
`int(_, 16)` and, on success, looked up in the hash table. -/
theorem find_shader_hash (st : Catalog) (x : List Char)
    (hnone : lookupD st.shaders (hashTok ++ x) = none) :
    find_shader st (hashTok ++ x) =
      match pyInt 16 x with
      | none => .error .valueError
      | some h => .ok (lookupD st.shadersByHash h) := by
  have hdrop : (hashTok ++ x).drop 5 = x := by
    rw [show (5 : Nat) = hashTok.length from rfl, List.drop_left]
  simp only [find_shader, hnone, startsWith_append, if_true, hdrop]

/-! ## Registration and fold lemmas (claims C2, C5, C8, C9, C10) -/

theorem lookupD_insert_cases {κ α : Type} [DecidableEq κ] (d : List (κ × α)) (k k' : κ)
    (v v' : α) (h : lookupD (insertD d k v) k' = some v') :
    (k = k' ∧ v = v') ∨ (k ≠ k' ∧ lookupD d k' = some v') := by
  by_cases hk : k = k'
  · rw [show lookupD (insertD d k v) k' = if k = k' then some v else lookupD d k' from rfl,
      if_pos hk] at h
    exact Or.inl ⟨hk, Option.some.inj h⟩
  · rw [show lookupD (insertD d k v) k' = if k = k' then some v else lookupD d k' from rfl,
      if_neg hk] at h
    exact Or.inr ⟨hk, h⟩

theorem jenkhash_lt (s : List Char) : jenkhash_Generate s < 4294967296 := by
  unfold jenkhash_Generate
  exact Nat.mod_lt _ (by norm_num [M32])

theorem regState_nextUid (st : Catalog) (bn : Option (List Char)) (fn : List Char)
    (sh0 : Shader) : (regState st bn fn sh0).nextUid = st.nextUid + 1 := rfl

theorem regState_shaders_self (st : Catalog) (bn : Option (List Char)) (fn : List Char)
    (sh0 : Shader) :
    lookupD (regState st bn fn sh0).shaders fn
      = some { sh0 with filename := fn, uid := st.nextUid } :=
  lookupD_insert_self _ _ _

theorem regState_shaders_ne {st : Catalog} {bn : Option (List Char)} {fn : List Char}
    {sh0 : Shader} {a : List Char} (ha : a ≠ fn) :
    lookupD (regState st bn fn sh0).shaders a = lookupD st.shaders a :=
  lookupD_insert_ne _ _ _ _ (fun h => ha h.symm)

theorem regState_base_self (st : Catalog) (bn : Option (List Char)) (fn : List Char)
    (sh0 : Shader) :
    lookupD (regState st bn fn sh0).baseNames st.nextUid = some bn :=
  lookupD_insert_self _ _ _

theorem regState_base_ne {st : Catalog} {bn : Option (List Char)} {fn : List Char}
    {sh0 : Shader} {u : Nat} (hu : st.nextUid ≠ u) :
    lookupD (regState st bn fn sh0).baseNames u = lookupD st.baseNames u :=
  lookupD_insert_ne _ _ _ _ hu

theorem aliasStep_none {node : Xml} {bn : Option (List Char)} {st : Catalog} {el : Xml}
    (htx : el.text = none) : aliasStep node bn st el = .ok st := by
  simp [aliasStep, htx]

theorem aliasStep_some {node : Xml} {bn : Option (List Char)} {st : Catalog} {el : Xml}
    {fn : List Char} {sh0 : Shader} (htx : el.text = some fn)
    (hsx : Shader_from_xml node = .ok sh0) :
    aliasStep node bn st el = .ok (regState st bn fn sh0) := by
  simp [aliasStep, htx, hsx]

theorem aliasStep_some_err {node : Xml} {bn : Option (List Char)} {st : Catalog} {el : Xml}
    {fn : List Char} {er : PyError} (htx : el.text = some fn)
    (hsx : Shader_from_xml node = .error er) :
    aliasStep node bn st el = .error er := by
  simp [aliasStep, htx, hsx]

theorem foldE_cons {α : Type} (f : Catalog → α → Except PyError Catalog) (st : Catalog)
    (x : α) (xs : List α) :
    foldE f st (x :: xs) =
      match f st x with
      | .error e => .error e
      | .ok st' => foldE f st' xs := rfl

theorem foldE_cons_ok {α : Type} {f : Catalog → α → Except PyError Catalog} {st st' : Catalog}
    {x : α} {xs : List α} (h : foldE f st (x :: xs) = .ok st') :
    ∃ st1, f st x = .ok st1 ∧ foldE f st1 xs = .ok st' := by
  rw [foldE_cons] at h
  cases hf : f st x with
  | error e => rw [hf] at h; cases h
  | ok st1 => rw [hf] at h; exact ⟨st1, rfl, h⟩

theorem foldE_append_ok {α : Type} {f : Catalog → α → Except PyError Catalog} :
    ∀ {l1 l2 : List α} {st st' : Catalog}, foldE f st (l1 ++ l2) = .ok st' →
    ∃ st1, foldE f st l1 = .ok st1 ∧ foldE f st1 l2 = .ok st' := by
  intro l1
  induction l1 with
  | nil => intro l2 st st' h; exact ⟨st, rfl, h⟩
  | cons x xs ih =>
    intro l2 st st' h
    rw [List.cons_append] at h
    obtain ⟨st1, hf, hrest⟩ := foldE_cons_ok h
    obtain ⟨st2, hfold, hl2⟩ := ih hrest
    exact ⟨st2, by rw [foldE_cons, hf]; exact hfold, hl2⟩

theorem aliasFold_pres (node : Xml) (bn : Option (List Char)) :
    ∀ (els : List Xml) (st st' : Catalog),
    foldE (aliasStep node bn) st els = .ok st' →
    st.nextUid ≤ st'.nextUid ∧
    (∀ a, a ∉ els.filterMap Xml.text → lookupD st'.shaders a = lookupD st.shaders a) ∧
    (∀ u, u < st.nextUid → lookupD st'.baseNames u = lookupD st.baseNames u) := by
  intro els
  induction els with
  | nil =>
    intro st st' h
    cases h
    exact ⟨Nat.le_refl _, fun _ _ => rfl, fun _ _ => rfl⟩
  | cons el rest ih =>
    intro st st' h
    cases htx : el.text with
    | none =>
      rw [foldE_cons, aliasStep_none htx] at h
      obtain ⟨h1, h2, h3⟩ := ih st st' h
      refine ⟨h1, fun a ha => h2 a (fun hm => ha ?_), h3⟩
      rw [List.filterMap_cons, htx]
      exact hm
    | some fn =>
      cases hsx : Shader_from_xml node with
      | error er =>
        rw [foldE_cons, aliasStep_some_err htx hsx] at h
        simp at h
      | ok ps =>
        rw [foldE_cons, aliasStep_some htx hsx] at h
        obtain ⟨h1, h2, h3⟩ := ih _ st' h
        rw [regState_nextUid] at h1
        refine ⟨by omega, ?_, ?_⟩
        · intro a ha
          have hane : a ∉ rest.filterMap Xml.text ∧ a ≠ fn := by
            rw [List.filterMap_cons, htx] at ha
            exact ⟨fun hm => ha (List.mem_cons_of_mem _ hm),
              fun he => ha (he ▸ List.mem_cons_self fn _)⟩
          rw [h2 a hane.1]
          exact regState_shaders_ne hane.2
        · intro u hu
          rw [h3 u (by rw [regState_nextUid]; omega)]
          exact regState_base_ne (by omega)

theorem aliasFold_allNone (node : Xml) (bn : Option (List Char)) :
    ∀ (els : List Xml) (st : Catalog), els.filterMap Xml.text = [] →
    foldE (aliasStep node bn) st els = .ok st := by
  intro els
  induction els with
  | nil => intro st _; rfl
  | cons el rest ih =>
    intro st hf
    rw [List.filterMap_cons] at hf
    cases htx : el.text with
    | none =>
      rw [htx] at hf
      rw [foldE_cons, aliasStep_none htx]
      exact ih st hf
    | some t =>
      rw [htx] at hf
      simp at hf

theorem aliasFold_reg (node : Xml) (bn : Option (List Char)) :
    ∀ (els : List Xml) (st st' : Catalog) (a : List Char),
    foldE (aliasStep node bn) st els = .ok st' →
    a ∈ els.filterMap Xml.text →
    ∃ ps sh, Shader_from_xml node = .ok ps ∧
      lookupD st'.shaders a = some sh ∧
      sh.filename = a ∧ sh.render_buckets = ps.render_buckets ∧
      sh.layouts = ps.layouts ∧ sh.parameters = ps.parameters ∧
      lookupD st'.baseNames sh.uid = some bn ∧ sh.uid < st'.nextUid := by
  intro els
  induction els with
  | nil =>
    intro st st' a _ hmem
    simp at hmem
  | cons el rest ih =>
    intro st st' a h hmem
    rw [List.filterMap_cons] at hmem
    cases htx : el.text with
    | none =>
      rw [htx] at hmem
      rw [foldE_cons, aliasStep_none htx] at h
      exact ih st st' a h hmem
    | some fn =>
      rw [htx] at hmem
      cases hsx : Shader_from_xml node with
      | error er =>
        rw [foldE_cons, aliasStep_some_err htx hsx] at h
        simp at h
      | ok ps =>
        rw [foldE_cons, aliasStep_some htx hsx] at h
        by_cases hmem' : a ∈ rest.filterMap Xml.text
        · obtain ⟨ps', sh, hps', h2, h3, h4, h5, h6, h7, h8⟩ := ih _ st' a h hmem'
          rw [hsx] at hps'
          injection hps' with hpe
          subst hpe
          exact ⟨ps, sh, rfl, h2, h3, h4, h5, h6, h7, h8⟩
        · have ha : a = fn := by
            rcases List.mem_cons.mp hmem with h1 | h1
            · exact h1
            · exact absurd h1 hmem'
          subst ha
          obtain ⟨hnext, hsh, hbase⟩ := aliasFold_pres node bn rest _ st' h
          rw [regState_nextUid] at hnext
          refine ⟨ps, { ps with filename := a, uid := st.nextUid }, rfl, ?_, rfl, rfl, rfl,
            rfl, ?_, ?_⟩
          · rw [hsh a hmem']
            exact regState_shaders_self st bn a ps
          · rw [hbase st.nextUid (by rw [regState_nextUid]; omega)]
            exact regState_base_self st bn a ps
          · show st.nextUid < st'.nextUid
            omega

theorem loadInv_empty (cat : List Xml) : LoadInv cat emptyCatalog := by
  constructor <;> (intro a b h; simp [emptyCatalog, lookupD] at h)

theorem loadInv_regState {cat : List Xml} {st : Catalog} (inv : LoadInv cat st)
    {node : Xml} (hnode : node ∈ cat) {c : Xml} (hc : Xml.findChild node nameTag = some c)
    (fn : List Char) (sh0 : Shader) :
    LoadInv cat (regState st c.text fn sh0) := by
  constructor
  · intro k sh h
    rcases lookupD_insert_cases st.shaders fn k _ sh h with ⟨heq, hv⟩ | ⟨hne, h'⟩
    · rw [← hv]
      exact Nat.lt_succ_self st.nextUid
    · exact Nat.lt_succ_of_lt (inv.uidS k sh h')
  · intro hk sh h
    rcases lookupD_insert_cases st.shadersByHash _ hk _ sh h with ⟨heq, hv⟩ | ⟨hne, h'⟩
    · rw [← hv]
      exact Nat.lt_succ_self st.nextUid
    · exact Nat.lt_succ_of_lt (inv.uidH hk sh h')
  · intro k sh h
    rcases lookupD_insert_cases st.shaders fn k _ sh h with ⟨heq, hv⟩ | ⟨hne, h'⟩
    · refine ⟨c.text, ?_, node, hnode, c, hc, rfl⟩
      rw [← hv]
      exact regState_base_self st c.text fn sh0
    · obtain ⟨bn, hbn, e, he, c', hc', hct⟩ := inv.baseS k sh h'
      have hlt : sh.uid < st.nextUid := inv.uidS k sh h'
      refine ⟨bn, ?_, e, he, c', hc', hct⟩
      rw [regState_base_ne (by omega)]
      exact hbn
  · intro hk sh h
    rcases lookupD_insert_cases st.shadersByHash _ hk _ sh h with ⟨heq, hv⟩ | ⟨hne, h'⟩
    · refine ⟨c.text, ?_, node, hnode, c, hc, rfl⟩
      rw [← hv]
      exact regState_base_self st c.text fn sh0
    · obtain ⟨bn, hbn, e, he, c', hc', hct⟩ := inv.baseH hk sh h'
      have hlt : sh.uid < st.nextUid := inv.uidH hk sh h'
      refine ⟨bn, ?_, e, he, c', hc', hct⟩
      rw [regState_base_ne (by omega)]
      exact hbn
  · intro hk sh h
    rcases lookupD_insert_cases st.shadersByHash _ hk _ sh h with ⟨heq, hv⟩ | ⟨hne, h'⟩
    · subst heq
      have := jenkhash_lt fn
      simp only [Int.ofNat_eq_natCast]
      exact ⟨by omega, by omega⟩
    · exact inv.hashRange hk sh h'

theorem processEntry_eq {st : Catalog} {node c : Xml}
    (hc : Xml.findChild node nameTag = some c) :
    processEntry st node = foldE (aliasStep node c.text) st (aliasElems node) := by
  simp [processEntry, hc]

theorem processEntry_pres {st st' : Catalog} {node : Xml}
    (h : processEntry st node = .ok st') :
    st.nextUid ≤ st'.nextUid ∧
    (∀ a, a ∉ aliasTexts node → lookupD st'.shaders a = lookupD st.shaders a) ∧
    (∀ u, u < st.nextUid → lookupD st'.baseNames u = lookupD st.baseNames u) := by
  cases hc : Xml.findChild node nameTag with
  | none => simp [processEntry, hc] at h
  | some c =>
    rw [processEntry_eq hc] at h
    exact aliasFold_pres node c.text (aliasElems node) st st' h

theorem loadInv_aliasFold {cat : List Xml} {node c : Xml} (hnode : node ∈ cat)
    (hc : Xml.findChild node nameTag = some c) :
    ∀ (els : List Xml) {st st' : Catalog}, LoadInv cat st →
    foldE (aliasStep node c.text) st els = .ok st' → LoadInv cat st' := by
  intro els
  induction els with
  | nil =>
    intro st st' inv h
    cases h
    exact inv
  | cons el rest ih =>
    intro st st' inv h
    cases htx : el.text with
    | none =>
      rw [foldE_cons, aliasStep_none htx] at h
      exact ih inv h
    | some fn =>
      cases hsx : Shader_from_xml node with
      | error er =>
        rw [foldE_cons, aliasStep_some_err htx hsx] at h
        simp at h
      | ok ps =>
        rw [foldE_cons, aliasStep_some htx hsx] at h
        exact ih (loadInv_regState inv hnode hc fn ps) h

theorem loadInv_processEntry {cat : List Xml} {st st' : Catalog} {node : Xml}
    (hnode : node ∈ cat) (inv : LoadInv cat st) (h : processEntry st node = .ok st') :
    LoadInv cat st' := by
  cases hc : Xml.findChild node nameTag with
  | none => simp [processEntry, hc] at h
  | some c =>
    rw [processEntry_eq hc] at h
    exact loadInv_aliasFold hnode hc (aliasElems node) inv h

theorem loadInv_foldE {cat : List Xml} :
    ∀ (es : List Xml) {st st' : Catalog}, (∀ e ∈ es, e ∈ cat) → LoadInv cat st →
    foldE processEntry st es = .ok st' → LoadInv cat st' := by
  intro es
  induction es with
  | nil =>
    intro st st' _ inv h
    cases h
    exact inv
  | cons e rest ih =>
    intro st st' hsub inv h
    obtain ⟨st1, h1, h2⟩ := foldE_cons_ok h
    exact ih (fun x hx => hsub x (List.mem_cons_of_mem e hx))
      (loadInv_processEntry (hsub e (List.mem_cons_self e rest)) inv h1) h2

theorem load_shaders_inv {cat : List Xml} {st : Catalog} (h : load_shaders cat = .ok st) :
    LoadInv cat st :=
  loadInv_foldE cat (fun _ hx => hx) (loadInv_empty cat) h

theorem loadFold_pres :
    ∀ (es : List Xml) {st st' : Catalog}, foldE processEntry st es = .ok st' →
    st.nextUid ≤ st'.nextUid ∧
    (∀ a, (∀ e ∈ es, a ∉ aliasTexts e) → lookupD st'.shaders a = lookupD st.shaders a) ∧
    (∀ u, u < st.nextUid → lookupD st'.baseNames u = lookupD st.baseNames u) := by
  intro es
  induction es with
  | nil =>
    intro st st' h
    cases h
    exact ⟨Nat.le_refl _, fun _ _ => rfl, fun _ _ => rfl⟩
  | cons e rest ih =>
    intro st st' h
    obtain ⟨st1, h1, h2⟩ := foldE_cons_ok h
    obtain ⟨p1, p2, p3⟩ := processEntry_pres h1
    obtain ⟨q1, q2, q3⟩ := ih h2
    refine ⟨Nat.le_trans p1 q1, ?_, ?_⟩
    · intro a ha
      rw [q2 a (fun e' he' => ha e' (List.mem_cons_of_mem e he')),
        p2 a (ha e (List.mem_cons_self e rest))]
    · intro u hu
      rw [q3 u (Nat.lt_of_lt_of_le hu p1), p3 u hu]

/-! ## Claim theorems: derived shader properties -/

/-- Claim C1: the spec says a `hash_` token with a non-hexadecimal suffix
is treated as not-found, keeping `find_shader` total.  The code instead
raises `ValueError` out of `int(filename[5:], 16)`: on the empty tables
produced by loading an empty catalog, both "hash_zz" and "hash_" make
`find_shader` raise rather than return the not-found value. -/
theorem C1_find_shader_raises_on_bad_hash_suffix :
    load_shaders [] = .ok emptyCatalog ∧
    find_shader emptyCatalog "hash_zz".toList = .error .valueError ∧
    find_shader emptyCatalog "hash_".toList = .error .valueError :=
  ⟨rfl, rfl, rfl⟩

/-- Claim C6: `required_tangent` is true exactly when one of the shader's
layouts lists the field tag "Tangent", and in particular is false for a
shader whose layouts hold only tags like Position and Normal. -/
theorem C6_required_tangent (sh : Shader) :
    (sh.required_tangent = true ↔ ∃ l ∈ sh.layouts, "Tangent".toList ∈ l) ∧
    ((∀ l ∈ sh.layouts, ∀ t ∈ l, t = "Position".toList ∨ t = "Normal".toList) →
      sh.required_tangent = false) := by
  constructor
  · simp [Shader.required_tangent, List.any_eq_true]
  · intro h
    rw [Bool.eq_false_iff]
    intro hT
    rw [Shader.required_tangent, List.any_eq_true] at hT
    obtain ⟨l, hl, hdec⟩ := hT
    rw [decide_eq_true_eq] at hdec
    rcases h l hl _ hdec with h1 | h1 <;> exact absurd h1 (by decide)

/-- Claim C6, witness: a Position/Normal-only shader satisfies the
hypothesis and indeed has `required_tangent = false`. -/
theorem C6_required_tangent_witness :
    (∀ l ∈ shPosNorm.layouts, ∀ t ∈ l, t = "Position".toList ∨ t = "Normal".toList) ∧
    shPosNorm.required_tangent = false :=
  ⟨by decide, (C6_required_tangent shPosNorm).2 (by decide)⟩

theorem uv_foldl (ps : List ShaderParam) (a b : Bool) :
    ps.foldl (fun (acc : Bool × Bool) p =>
      (acc.1 || decide (p.name = "globalAnimUV0".toList),
       acc.2 || decide (p.name = "globalAnimUV1".toList))) (a, b)
    = (a || ps.any (fun p => decide (p.name = "globalAnimUV0".toList)),
       b || ps.any (fun p => decide (p.name = "globalAnimUV1".toList))) := by
  induction ps generalizing a b with
  | nil => simp
  | cons p rest ih =>
    rw [List.foldl_cons, ih, List.any_cons, List.any_cons, Bool.or_assoc, Bool.or_assoc]

/-- Claim C7: `is_uv_animation_supported` is true exactly when the
parameters contain both `globalAnimUV0` and `globalAnimUV1` by name, and
is false whenever exactly one of the two is present. -/
theorem C7_uv_animation (sh : Shader) :
    (sh.is_uv_animation_supported = true ↔
      (∃ p ∈ sh.parameters, p.name = "globalAnimUV0".toList) ∧
      (∃ p ∈ sh.parameters, p.name = "globalAnimUV1".toList)) ∧
    ((((∃ p ∈ sh.parameters, p.name = "globalAnimUV0".toList) ∧
        ¬ (∃ p ∈ sh.parameters, p.name = "globalAnimUV1".toList)) ∨
      ((¬ ∃ p ∈ sh.parameters, p.name = "globalAnimUV0".toList) ∧
        (∃ p ∈ sh.parameters, p.name = "globalAnimUV1".toList))) →
      sh.is_uv_animation_supported = false) := by
  have hiff : sh.is_uv_animation_supported = true ↔
      (∃ p ∈ sh.parameters, p.name = "globalAnimUV0".toList) ∧
      (∃ p ∈ sh.parameters, p.name = "globalAnimUV1".toList) := by
    rw [Shader.is_uv_animation_supported]
    rw [uv_foldl]
    simp [List.any_eq_true]
  refine ⟨hiff, fun h => ?_⟩
  rw [Bool.eq_false_iff]
  intro ht
  obtain ⟨hA, hB⟩ := hiff.mp ht
  rcases h with ⟨_, hnB⟩ | ⟨hnA, _⟩
  · exact hnB hB
  · exact hnA hA

/-- Claim C7, witness: a shader with only `globalAnimUV0` present
satisfies the one-sided hypothesis and does not support UV animation. -/
theorem C7_uv_animation_witness :
    ((∃ p ∈ shUv0Only.parameters, p.name = "globalAnimUV0".toList) ∧
      ¬ (∃ p ∈ shUv0Only.parameters, p.name = "globalAnimUV1".toList)) ∧
    shUv0Only.is_uv_animation_supported = false :=
  ⟨by decide, (C7_uv_animation shUv0Only).2 (Or.inl (by decide))⟩

/-- Claim C4, counterexample: the claim promises the integer list for any
whitespace-separated text, but `from_xml` splits on single spaces only:
the text "1  2" (two spaces) and the text with a tab both hold the
whitespace-separated integers 1 and 2, yet parsing raises `ValueError`
instead of returning `[1, 2]`. -/
theorem C4_whitespace_counterexample :
    RenderBucketProperty_from_xml
        (Xml.el renderBucketTag [] (some "1  2".toList) []) = .error .valueError ∧
    RenderBucketProperty_from_xml
        (Xml.el renderBucketTag [] (some "1  2".toList) []) ≠ .ok [1, 2] ∧
    RenderBucketProperty_from_xml
        (Xml.el renderBucketTag [] (some "1\t2".toList) []) = .error .valueError :=
  ⟨rfl, by decide, rfl⟩

/-- Claim C4 (amended): for a RenderBucket text node that is the
single-space join of integer literals (each literal nonempty and free of
whitespace, as accepted by Python `int`), `from_xml` returns exactly those
integers in document order; the write-back path of the current source is
unimplemented — on any such non-empty value list `to_xml` raises
`TypeError` instead of emitting the joined text. -/
theorem C4_render_bucket_amended (toks : List (List Char)) (vals : List Int)
    (hne : toks ≠ [])
    (h : List.Forall₂
      (fun t v => t ≠ [] ∧ (∀ c ∈ t, isPyWs c = false) ∧ pyInt 10 t = some v) toks vals) :
    RenderBucketProperty_from_xml (Xml.el renderBucketTag [] (some (joinSpace toks)) [])
      = .ok vals ∧
    RenderBucketProperty_to_xml vals = .error .typeError := by
  constructor
  · show mapIntE (splitSpace (pyStrip (joinSpace toks))) = .ok vals
    have hnosp : ∀ t ∈ toks, ∀ c ∈ t, c ≠ ' ' := by
      intro t ht c hc hceq
      obtain ⟨v, _, hws, _⟩ := Forall₂_exists_left h t ht
      have hf := hws c hc
      rw [hceq] at hf
      exact absurd hf (by decide)
    have hstrip : pyStrip (joinSpace toks) = joinSpace toks := by
      apply pyStrip_eq_self
      · intro c hc
        cases toks with
        | nil => exact absurd rfl hne
        | cons t rest =>
          obtain ⟨v, htne, hws, _⟩ := Forall₂_exists_left h t (List.mem_cons_self t rest)
          obtain ⟨x, hx⟩ := joinSpace_cons_append t rest
          cases t with
          | nil => exact absurd rfl htne
          | cons c0 t' =>
            rw [hx] at hc
            simp only [List.cons_append, List.head?_cons, Option.some.injEq] at hc
            rw [← hc]
            exact hws c0 (List.mem_cons_self c0 t')
      · intro c hc
        obtain ⟨t, ht, hct⟩ := joinSpace_getLast_mem toks hne
          (fun t ht => (Forall₂_exists_left h t ht).choose_spec.1) c hc
        obtain ⟨v, _, hws, _⟩ := Forall₂_exists_left h t ht
        exact hws c hct
    rw [hstrip, splitSpace_joinSpace toks hne hnosp]
    exact mapIntE_ok (h.imp (fun t v hr => hr.2.2))
  · have hlen := h.length_eq
    cases vals with
    | nil =>
      rw [List.length_nil, List.length_eq_zero] at hlen
      exact absurd hlen hne
    | cons v vs => rfl

/-- Claim C4, witness: the single-space join of "1", "-2", "30" parses to
`[1, -2, 30]`, and `to_xml` on that value raises `TypeError`. -/
theorem C4_render_bucket_amended_witness :
    (["1".toList, "-2".toList, "30".toList] ≠ ([] : List (List Char))) ∧
    RenderBucketProperty_from_xml
      (Xml.el renderBucketTag []
        (some (joinSpace ["1".toList, "-2".toList, "30".toList])) [])
      = .ok [1, -2, 30] ∧
    RenderBucketProperty_to_xml [1, -2, 30] = .error .typeError := by
  have hf : List.Forall₂
      (fun t v => t ≠ [] ∧ (∀ c ∈ t, isPyWs c = false) ∧ pyInt 10 t = some v)
      ["1".toList, "-2".toList, "30".toList] [1, -2, 30] :=
    .cons ⟨by decide, by decide, by decide⟩
      (.cons ⟨by decide, by decide, by decide⟩
        (.cons ⟨by decide, by decide, by decide⟩ .nil))
  exact ⟨by decide,
    (C4_render_bucket_amended _ _ (by decide) hf).1,
    (C4_render_bucket_amended _ _ (by decide) hf).2⟩

theorem find_shader_eq_of_lookup_some {st : Catalog} {s : List Char} {sh : Shader}
    (hS : lookupD st.shaders s = some sh) : find_shader st s = .ok (some sh) := by
  simp [find_shader, hS]

theorem find_shader_eq_of_lookup_none {st : Catalog} {s : List Char}
    (hS : lookupD st.shaders s = none) :
    find_shader st s =
      (if startsWith hashTok s then
        match pyInt 16 (s.drop 5) with
        | none => .error .valueError
        | some h => .ok (lookupD st.shadersByHash h)
      else .ok none) := by
  simp [find_shader, hS]

theorem find_shader_some_cases {st : Catalog} {s : List Char} {sh : Shader}
    (h : find_shader st s = .ok (some sh)) :
    lookupD st.shaders s = some sh ∨ ∃ hk, lookupD st.shadersByHash hk = some sh := by
  cases hS : lookupD st.shaders s with
  | some sh' =>
    rw [find_shader_eq_of_lookup_some hS] at h
    simp at h
    left
    rw [h]
  | none =>
    rw [find_shader_eq_of_lookup_none hS] at h
    by_cases hpre : startsWith hashTok s
    · rw [if_pos hpre] at h
      cases hpi : pyInt 16 (s.drop 5) with
      | none => rw [hpi] at h; simp at h
      | some hk =>
        rw [hpi] at h
        simp at h
        exact Or.inr ⟨hk, h⟩
    · rw [if_neg hpre] at h
      simp at h

/-! ## Claim theorems: catalog lookup -/

/-- Claim C8: after a successful load, every shader stored in the
by-filename or by-hash table is a key of the base-name table, and
consequently whenever `find_shader` returns a shader the
`_shaders_base_names[shader]` subscript inside `find_shader_base_name`
finds a value instead of failing with a missing key. -/
theorem C8_base_name_total (cat : List Xml) (st : Catalog)
    (hload : load_shaders cat = .ok st) :
    (∀ k sh, lookupD st.shaders k = some sh → (lookupD st.baseNames sh.uid).isSome) ∧
    (∀ h sh, lookupD st.shadersByHash h = some sh → (lookupD st.baseNames sh.uid).isSome) ∧
    (∀ s sh, find_shader st s = .ok (some sh) →
      ∃ bn, lookupD st.baseNames sh.uid = some bn ∧
        find_shader_base_name st s = .ok bn) := by
  have inv := load_shaders_inv hload
  refine ⟨?_, ?_, ?_⟩
  · intro k sh h
    obtain ⟨bn, hbn, -⟩ := inv.baseS k sh h
    rw [hbn]
    rfl
  · intro hk sh h
    obtain ⟨bn, hbn, -⟩ := inv.baseH hk sh h
    rw [hbn]
    rfl
  · intro s sh hfind
    rcases find_shader_some_cases hfind with hS | ⟨hk, hH⟩
    · obtain ⟨bn, hbn, -⟩ := inv.baseS s sh hS
      exact ⟨bn, hbn, by simp [find_shader_base_name, hfind, hbn]⟩
    · obtain ⟨bn, hbn, -⟩ := inv.baseH hk sh hH
      exact ⟨bn, hbn, by simp [find_shader_base_name, hfind, hbn]⟩

/-- Claim C8, witness: the invariant holds concretely for the loaded
one-entry demo catalog. -/
theorem C8_base_name_total_witness :
    load_shaders demoCatalog = .ok demoState ∧
    ((∀ k sh, lookupD demoState.shaders k = some sh →
        (lookupD demoState.baseNames sh.uid).isSome) ∧
      (∀ h sh, lookupD demoState.shadersByHash h = some sh →
        (lookupD demoState.baseNames sh.uid).isSome) ∧
      (∀ s sh, find_shader demoState s = .ok (some sh) →
        ∃ bn, lookupD demoState.baseNames sh.uid = some bn ∧
          find_shader_base_name demoState s = .ok bn)) :=
  ⟨by decide, C8_base_name_total demoCatalog demoState (by decide)⟩

/-- Claim C5: over the tables of a successfully loaded catalog whose
entries all carry a Name text, `find_shader_base_name` returns the
not-found value exactly when `find_shader` does, and otherwise returns
the display name of a catalog entry — the one recorded for the found
shader at registration. -/
theorem C5_find_base_name (cat : List Xml) (st : Catalog)
    (hload : load_shaders cat = .ok st)
    (hNames : ∀ e ∈ cat, ∀ c, Xml.findChild e nameTag = some c → ∃ t, c.text = some t) :
    ∀ s, (find_shader_base_name st s = .ok none ↔ find_shader st s = .ok none) ∧
      (∀ sh, find_shader st s = .ok (some sh) →
        ∃ n, find_shader_base_name st s = .ok (some n) ∧
          ∃ e, e ∈ cat ∧ ∃ c, Xml.findChild e nameTag = some c ∧ c.text = some n) := by
  have inv := load_shaders_inv hload
  intro s
  have hcase : ∀ sh, find_shader st s = .ok (some sh) →
      ∃ n, find_shader_base_name st s = .ok (some n) ∧
        ∃ e, e ∈ cat ∧ ∃ c, Xml.findChild e nameTag = some c ∧ c.text = some n := by
    intro sh hfind
    have hbn : ∃ bn, lookupD st.baseNames sh.uid = some bn ∧
        ∃ e, e ∈ cat ∧ ∃ c, Xml.findChild e nameTag = some c ∧ c.text = bn := by
      rcases find_shader_some_cases hfind with hS | ⟨hk, hH⟩
      · exact inv.baseS s sh hS
      · exact inv.baseH hk sh hH
    obtain ⟨bn, hlook, e, he, c, hc, hct⟩ := hbn
    obtain ⟨t, ht⟩ := hNames e he c hc
    refine ⟨t, ?_, e, he, c, hc, ht⟩
    have hbneq : find_shader_base_name st s = .ok bn := by
      simp [find_shader_base_name, hfind, hlook]
    rw [hbneq, ← hct, ht]
  constructor
  · constructor
    · intro hbn
      cases hf : find_shader st s with
      | error er =>
        have : find_shader_base_name st s = .error er := by
          simp [find_shader_base_name, hf]
        rw [this] at hbn
        cases hbn
      | ok osh =>
        cases osh with
        | none => rfl
        | some sh =>
          obtain ⟨n, hn, -⟩ := hcase sh hf
          rw [hn] at hbn
          simp at hbn
    · intro hf
      simp [find_shader_base_name, hf]
  · exact hcase

/-- Claim C5, witness: on the demo catalog, an unregistered name misses
through both functions and a registered alias resolves to the entry's
display name. -/
theorem C5_find_base_name_witness :
    load_shaders demoCatalog = .ok demoState ∧
    ((find_shader_base_name demoState "nonexistent.sps".toList = .ok none ↔
        find_shader demoState "nonexistent.sps".toList = .ok none) ∧
      (∀ sh, find_shader demoState "nonexistent.sps".toList = .ok (some sh) →
        ∃ n, find_shader_base_name demoState "nonexistent.sps".toList = .ok (some n) ∧
          ∃ e, e ∈ demoCatalog ∧ ∃ c, Xml.findChild e nameTag = some c ∧ c.text = some n)) :=
  ⟨by decide,
    C5_find_base_name demoCatalog demoState (by decide)
      (by
        intro e he c hc
        simp only [demoCatalog, List.mem_singleton] at he
        subst he
        rw [show Xml.findChild demoEntry nameTag
          = some (Xml.el "Name".toList [] (some "Standard Shader".toList) []) from rfl] at hc
        injection hc with h1
        subst h1
        exact ⟨"Standard Shader".toList, rfl⟩)
      "nonexistent.sps".toList⟩

/-- Claim C9: `find_shader` places no 8-digit, case or 32-bit restriction
on the `hash_` suffix: for any unregistered token whose suffix Python
`int(_, 16)` accepts (uppercase, extra digits, whitespace, `0x`, a sign,
underscores) the parsed value is looked up in the hash table, and a value
outside the 32-bit range of stored hashes simply misses. -/
theorem C9_hash_suffix_liberal (cat : List Xml) (st : Catalog) (x : List Char) (v : Int)
    (hload : load_shaders cat = .ok st)
    (hS : lookupD st.shaders (hashTok ++ x) = none)
    (hpi : pyInt 16 x = some v) :
    find_shader st (hashTok ++ x) = .ok (lookupD st.shadersByHash v) ∧
    ((v < 0 ∨ (4294967296 : Int) ≤ v) → lookupD st.shadersByHash v = none) := by
  have inv := load_shaders_inv hload
  constructor
  · rw [find_shader_hash st x hS, hpi]
  · intro hout
    cases hL : lookupD st.shadersByHash v with
    | none => rfl
    | some sh =>
      have := inv.hashRange v sh hL
      rcases hout with h1 | h1 <;> omega

/-- Claim C9, witness: the suffix " +0X1_FFFF_FFFF " (whitespace, sign,
0X marker, uppercase, underscores, nine digits) parses to `2 ^ 33 - 1`
and the lookup misses without an error. -/
theorem C9_hash_suffix_liberal_witness :
    load_shaders [] = .ok emptyCatalog ∧
    lookupD emptyCatalog.shaders (hashTok ++ " +0X1_FFFF_FFFF ".toList) = none ∧
    pyInt 16 " +0X1_FFFF_FFFF ".toList = some 8589934591 ∧
    find_shader emptyCatalog (hashTok ++ " +0X1_FFFF_FFFF ".toList)
      = .ok (lookupD emptyCatalog.shadersByHash 8589934591) ∧
    lookupD emptyCatalog.shadersByHash 8589934591 = none :=
  ⟨rfl, rfl, by decide,
    (C9_hash_suffix_liberal [] emptyCatalog " +0X1_FFFF_FFFF ".toList 8589934591
      rfl rfl (by decide)).1,
    (C9_hash_suffix_liberal [] emptyCatalog " +0X1_FFFF_FFFF ".toList 8589934591
      rfl rfl (by decide)).2 (Or.inr (by norm_num))⟩

/-- Claim C3: a registered filename whose hash-table slot was not
overwritten resolves identically through its `hash_` + 8-hex-digit token,
provided the token itself is not a registered filename. -/
theorem C3_hash_token_roundtrip (cat : List Xml) (st : Catalog) (f : List Char) (sh : Shader)
    (_hload : load_shaders cat = .ok st)
    (hf : lookupD st.shaders f = some sh)
    (hh : lookupD st.shadersByHash (Int.ofNat (jenkhash_Generate f)) = some sh)
    (htok : lookupD st.shaders (hashTok ++ toHex8 (jenkhash_Generate f)) = none) :
    find_shader st (hashTok ++ toHex8 (jenkhash_Generate f)) = .ok (some sh) ∧
    find_shader st f = .ok (some sh) := by
  constructor
  · rw [find_shader_hash st _ htok, pyInt16_toHex8 _ (jenkhash_lt f)]
    show Except.ok (lookupD st.shadersByHash (Int.ofNat (jenkhash_Generate f)))
      = .ok (some sh)
    rw [hh]
  · exact find_shader_eq_of_lookup_some hf

/-- Claim C3, witness: both "std.sps" and its hash token resolve to the
same registered shader of the demo catalog. -/
theorem C3_hash_token_roundtrip_witness :
    load_shaders demoCatalog = .ok demoState ∧
    lookupD demoState.shaders "std.sps".toList = some demoShaderStd ∧
    lookupD demoState.shadersByHash (Int.ofNat (jenkhash_Generate "std.sps".toList))
      = some demoShaderStd ∧
    lookupD demoState.shaders
      (hashTok ++ toHex8 (jenkhash_Generate "std.sps".toList)) = none ∧
    find_shader demoState (hashTok ++ toHex8 (jenkhash_Generate "std.sps".toList))
      = .ok (some demoShaderStd) ∧
    find_shader demoState "std.sps".toList = .ok (some demoShaderStd) :=
  ⟨by decide, by decide, by decide, by decide,
    (C3_hash_token_roundtrip demoCatalog demoState "std.sps".toList demoShaderStd
      (by decide) (by decide) (by decide) (by decide)).1,
    (C3_hash_token_roundtrip demoCatalog demoState "std.sps".toList demoShaderStd
      (by decide) (by decide) (by decide) (by decide)).2⟩

/-- Claim C2: for a loaded catalog, every alias `a` of an entry — as long
as no later entry re-registers `a` — resolves to a shader parsed from the
whole entry node with only the filename overwritten to `a`, and its base
name is the entry's display name; since every alias's shader agrees with
the same parse result, all the entry's aliases share identical
render_buckets, layouts and parameters. -/
theorem C2_alias_registration (pre post : List Xml) (e c : Xml) (n a : List Char)
    (st : Catalog)
    (hload : load_shaders (pre ++ e :: post) = .ok st)
    (hc : Xml.findChild e nameTag = some c)
    (hn : c.text = some n)
    (ha : a ∈ aliasTexts e)
    (hpost : ∀ e' ∈ post, a ∉ aliasTexts e') :
    ∃ sh ps, find_shader st a = .ok (some sh) ∧ sh.filename = a ∧
      find_shader_base_name st a = .ok (some n) ∧
      Shader_from_xml e = .ok ps ∧
      sh.render_buckets = ps.render_buckets ∧ sh.layouts = ps.layouts ∧
      sh.parameters = ps.parameters := by
  unfold load_shaders at hload
  obtain ⟨st1, hpre, hrest⟩ := foldE_append_ok hload
  obtain ⟨st2, hentry, hpost'⟩ := foldE_cons_ok hrest
  rw [processEntry_eq hc] at hentry
  obtain ⟨ps, sh, hps, hlook2, hfn, hrb, hly, hpm, hbn2, huid2⟩ :=
    aliasFold_reg e c.text (aliasElems e) st1 st2 a hentry ha
  obtain ⟨hn1, hn2, hn3⟩ := loadFold_pres post hpost'
  have hlook : lookupD st.shaders a = some sh := by
    rw [hn2 a hpost, hlook2]
  have hbn : lookupD st.baseNames sh.uid = some c.text := by
    rw [hn3 sh.uid huid2, hbn2]
  have hfind : find_shader st a = .ok (some sh) := find_shader_eq_of_lookup_some hlook
  refine ⟨sh, ps, hfind, hfn, ?_, hps, hrb, hly, hpm⟩
  simp [find_shader_base_name, hfind, hbn, hn]

/-- Claim C2, witness: the spec's scenario on the demo catalog — the
alias "std.sps" of the "Standard Shader" entry resolves with its own
filename, the entry's display name, and the entry's parsed field
values. -/
theorem C2_alias_registration_witness :
    load_shaders ([] ++ demoEntry :: []) = .ok demoState ∧
    "std.sps".toList ∈ aliasTexts demoEntry ∧
    ∃ sh ps, find_shader demoState "std.sps".toList = .ok (some sh) ∧
      sh.filename = "std.sps".toList ∧
      find_shader_base_name demoState "std.sps".toList
        = .ok (some "Standard Shader".toList) ∧
      Shader_from_xml demoEntry = .ok ps ∧
      sh.render_buckets = ps.render_buckets ∧ sh.layouts = ps.layouts ∧
      sh.parameters = ps.parameters :=
  ⟨by decide, by decide,
    C2_alias_registration [] [] demoEntry
      (Xml.el "Name".toList [] (some "Standard Shader".toList) [])
      "Standard Shader".toList "std.sps".toList demoState
      (by decide) rfl rfl (by decide) (by simp)⟩

/-- Claim C10: the aliases of an entry are the descendants of its
FileName children at any depth and of any tag; descendants without a text
are skipped silently (no registration, no error), while each one with a
text ends up registered under that text with the text as filename, and no
key outside the entry's alias texts is touched. -/
theorem C10_alias_discovery (st : Catalog) (node c : Xml) (st' : Catalog)
    (hc : Xml.findChild node nameTag = some c) :
    (aliasTexts node = [] → processEntry st node = .ok st) ∧
    (processEntry st node = .ok st' →
      (∀ fc ∈ node.children, fc.tag = fileNameTag →
        ∀ d ∈ fc.properDescendants, ∀ t, d.text = some t →
          ∃ sh, lookupD st'.shaders t = some sh ∧ sh.filename = t) ∧
      (∀ k, lookupD st'.shaders k ≠ lookupD st.shaders k → k ∈ aliasTexts node)) := by
  constructor
  · intro hempty
    rw [processEntry_eq hc]
    exact aliasFold_allNone node c.text (aliasElems node) st hempty
  · intro h
    rw [processEntry_eq hc] at h
    constructor
    · intro fc hfc htag d hd t ht
      have hmem : t ∈ (aliasElems node).filterMap Xml.text := by
        rw [List.mem_filterMap]
        refine ⟨d, ?_, ht⟩
        unfold aliasElems
        rw [List.mem_flatMap]
        exact ⟨fc, by rw [List.mem_filter]; exact ⟨hfc, by simp [htag]⟩, hd⟩
      obtain ⟨ps, sh, -, hlook, hfn, -, -, -, -, -⟩ :=
        aliasFold_reg node c.text (aliasElems node) st st' t h hmem
      exact ⟨sh, hlook, hfn⟩
    · intro k hk
      by_contra hnk
      obtain ⟨-, h2, -⟩ := aliasFold_pres node c.text (aliasElems node) st st' h
      exact hk (h2 k hnk)

/-- Claim C10, witness: processing an entry whose FileName block holds a
text-less Group wrapping a deep non-Item alias element, plus a text-less
Item, succeeds; the deep alias is registered and only alias texts are
touched. -/
theorem C10_alias_discovery_witness :
    Xml.findChild c10Entry nameTag = some (Xml.el "Name".toList [] (some "W".toList) []) ∧
    processEntry emptyCatalog c10Entry = .ok c10State ∧
    ((∀ fc ∈ c10Entry.children, fc.tag = fileNameTag →
        ∀ d ∈ fc.properDescendants, ∀ t, d.text = some t →
          ∃ sh, lookupD c10State.shaders t = some sh ∧ sh.filename = t) ∧
      (∀ k, lookupD c10State.shaders k ≠ lookupD emptyCatalog.shaders k →
        k ∈ aliasTexts c10Entry)) :=
  ⟨rfl, by decide,
    (C10_alias_discovery emptyCatalog c10Entry
      (Xml.el "Name".toList [] (some "W".toList) []) c10State rfl).2 (by decide)⟩

end Sollumz
